import Mathlib

/-!
# Verification of the Asynkron.Palette core

Shallow embedding of the palette generator's core modules:

* `src/lib/strategies.js` — hue-wheel strategies (pure rational angle
  arithmetic, embedded over `ℚ`; JavaScript's truncating `%` is modelled
  by `jsMod`).
* `src/cli.js` (`fillLargestGaps`) — greedy largest-gap hue insertion.
* `src/lib/color.js` — hex parsing/packing (over `ℕ`/`Char`) and the
  OKLCH conversion pipeline (over `ℝ`, since the source works with real
  transcendental functions).
* `src/lib/shades.js` — the 11-level Tailwind-style shade ramp.
-/

/-! ## JavaScript numeric primitives (exact rational model) -/

/-- Truncation toward zero, the rounding used by JavaScript's `%` operator. -/
def ratTrunc (q : ℚ) : ℤ :=
  if q < 0 then ⌈q⌉ else ⌊q⌋

/-- JavaScript's remainder operator `a % b` (sign follows the dividend). -/
def jsMod (a b : ℚ) : ℚ :=
  a - b * ratTrunc (a / b)

/-! ## `src/lib/strategies.js` -/

/-- `norm(h)` from `strategies.js`: `((h % 360) + 360) % 360`. -/
def normHue (h : ℚ) : ℚ :=
  jsMod (jsMod h 360 + 360) 360

/-- JavaScript `Array.prototype.slice(0, n)` (negative `n` counts from the
end; `Array.from({length})` style clamping at zero). -/
def jsTake (l : List ℚ) (n : ℤ) : List ℚ :=
  if n < 0 then l.take ((l.length : ℤ) + n).toNat else l.take n.toNat

/-- `fromKeyAngles(anchor, count, keyAngles)` from `strategies.js`: take up to
`count` key angles, then fill the remaining slots with evenly spaced hues. -/
def fromKeyAngles (anchor : ℚ) (count : ℤ) (keyAngles : List ℚ) : List ℚ :=
  let hues := (jsTake keyAngles count).map (fun a => normHue (anchor + a))
  let step : ℚ := 360 / (count : ℚ)
  hues ++ (List.range' hues.length (count - hues.length).toNat).map
    (fun (i : ℕ) => normHue (anchor + (i : ℚ) * step))

/-- The `evenly-spaced` strategy: `count` hues at `anchor + i·(360/count)`. -/
def evenlySpaced (anchor : ℚ) (count : ℤ) : List ℚ :=
  (List.range count.toNat).map
    (fun (i : ℕ) => normHue (anchor + (i : ℚ) * (360 / (count : ℚ))))

/-- Loop body of the `analogous` strategy: with `k` hues still needed and the
current step index `i`, alternately push `norm(anchor + i·30)` and
`norm(anchor - i·30)`. -/
def analogousAux (anchor : ℚ) : ℕ → ℕ → List ℚ
  | 0, _ => []
  | 1, i => [normHue (anchor + (i : ℚ) * 30)]
  | k + 2, i =>
    normHue (anchor + (i : ℚ) * 30) :: normHue (anchor - (i : ℚ) * 30) ::
      analogousAux anchor k (i + 1)

/-- The `analogous` strategy: starts from the raw anchor (not normalized in
the source), then alternately adds and subtracts multiples of 30°. -/
def analogous (anchor : ℚ) (count : ℤ) : List ℚ :=
  anchor :: analogousAux anchor (count - 1).toNat 1

/-- `STRATEGY_NAMES` from `strategies.js` (`Object.keys(strategies)`). -/
def STRATEGY_NAMES : List String :=
  ["evenly-spaced", "analogous", "complementary", "split-complementary",
   "triadic", "tetradic"]

/-- `generateHues(anchorHue, count, strategy)`: dispatch over the strategy
table's six own keys, falling back to `evenly-spaced` when none matches.
This captures `strategies[strategy] || strategies['evenly-spaced']`
restricted to own-key lookup; the full JavaScript lookup additionally sees
the truthy members an object literal inherits from `Object.prototype` and
then does not fall back — that complete semantics is `generateHuesJs`
below, built on top of this function. -/
def generateHues (anchorHue : ℚ) (count : ℤ) (strategy : String) : List ℚ :=
  if strategy = "evenly-spaced" then evenlySpaced anchorHue count
  else if strategy = "analogous" then analogous anchorHue count
  else if strategy = "complementary" then fromKeyAngles anchorHue count [0, 180]
  else if strategy = "split-complementary" then fromKeyAngles anchorHue count [0, 150, 210]
  else if strategy = "triadic" then fromKeyAngles anchorHue count [0, 120, 240]
  else if strategy = "tetradic" then fromKeyAngles anchorHue count [0, 90, 180, 270]
  else evenlySpaced anchorHue count

/-! ### Range facts about `norm` -/

lemma ratTrunc_le_of_nonneg {q : ℚ} (h : 0 ≤ q) : (ratTrunc q : ℚ) ≤ q := by
  unfold ratTrunc
  rw [if_neg (not_lt.mpr h)]
  exact Int.floor_le q

lemma lt_ratTrunc_add_one_of_nonneg {q : ℚ} (h : 0 ≤ q) :
    q < (ratTrunc q : ℚ) + 1 := by
  unfold ratTrunc
  rw [if_neg (not_lt.mpr h)]
  exact Int.lt_floor_add_one q

lemma le_ratTrunc_of_neg {q : ℚ} (h : q < 0) : q ≤ (ratTrunc q : ℚ) := by
  unfold ratTrunc
  rw [if_pos h]
  exact Int.le_ceil q

lemma ratTrunc_lt_add_one_of_neg {q : ℚ} (h : q < 0) :
    (ratTrunc q : ℚ) < q + 1 := by
  unfold ratTrunc
  rw [if_pos h]
  exact Int.ceil_lt_add_one q

/-- For a nonnegative dividend, `a % 360` lands in `[0, 360)`. -/
lemma jsMod_nonneg_bounds {a : ℚ} (ha : 0 ≤ a) :
    0 ≤ jsMod a 360 ∧ jsMod a 360 < 360 := by
  have hq : (0 : ℚ) ≤ a / 360 := div_nonneg ha (by norm_num)
  have h1 : (ratTrunc (a / 360) : ℚ) ≤ a / 360 := ratTrunc_le_of_nonneg hq
  have h2 : a / 360 < (ratTrunc (a / 360) : ℚ) + 1 :=
    lt_ratTrunc_add_one_of_nonneg hq
  unfold jsMod
  constructor <;> nlinarith [h1, h2]

/-- In general `a % 360` lands in the open interval `(-360, 360)`. -/
lemma jsMod_bounds (a : ℚ) : -360 < jsMod a 360 ∧ jsMod a 360 < 360 := by
  by_cases hq : a / 360 < 0
  · have h1 : a / 360 ≤ (ratTrunc (a / 360) : ℚ) := le_ratTrunc_of_neg hq
    have h2 : (ratTrunc (a / 360) : ℚ) < a / 360 + 1 :=
      ratTrunc_lt_add_one_of_neg hq
    unfold jsMod
    constructor <;> nlinarith [h1, h2]
  · have hq' : (0 : ℚ) ≤ a / 360 := not_lt.mp hq
    have hcancel : a / 360 * 360 = a := div_mul_cancel₀ a (by norm_num)
    have ha : 0 ≤ a := by nlinarith [hq', hcancel]
    have := jsMod_nonneg_bounds ha
    exact ⟨by linarith [this.1], this.2⟩

/-- Every normalized angle lies in `[0, 360)`. -/
lemma normHue_range (h : ℚ) : 0 ≤ normHue h ∧ normHue h < 360 := by
  have hb := jsMod_bounds h
  have hpos : (0 : ℚ) ≤ jsMod h 360 + 360 := by linarith [hb.1]
  exact jsMod_nonneg_bounds hpos

/-! ### Evaluation helpers for concrete angles -/

lemma jsMod_eq_self {a : ℚ} (h0 : 0 ≤ a) (h1 : a < 360) : jsMod a 360 = a := by
  have hfloor : ⌊a / 360⌋ = 0 := by
    rw [Int.floor_eq_zero_iff, Set.mem_Ico]
    refine ⟨div_nonneg h0 (by norm_num), ?_⟩
    rw [div_lt_one (by norm_num)]
    linarith
  unfold jsMod ratTrunc
  rw [if_neg (not_lt.mpr (div_nonneg h0 (by norm_num))), hfloor]
  push_cast
  ring

lemma jsMod_eq_sub {a : ℚ} (h0 : 360 ≤ a) (h1 : a < 720) : jsMod a 360 = a - 360 := by
  have hfloor : ⌊a / 360⌋ = 1 := by
    rw [Int.floor_eq_iff]
    constructor
    · push_cast
      rw [le_div_iff (by norm_num : (0:ℚ) < 360)]
      linarith
    · push_cast
      rw [div_lt_iff (by norm_num : (0:ℚ) < 360)]
      linarith
  have h0' : (0 : ℚ) ≤ a := by linarith
  unfold jsMod ratTrunc
  rw [if_neg (not_lt.mpr (div_nonneg h0' (by norm_num))), hfloor]
  push_cast
  ring

lemma jsMod_eq_self_of_neg {a : ℚ} (h0 : -360 < a) (h1 : a ≤ 0) : jsMod a 360 = a := by
  rcases eq_or_lt_of_le h1 with heq | hlt
  · subst heq
    exact jsMod_eq_self le_rfl (by norm_num)
  · have hq : a / 360 < 0 := div_neg_of_neg_of_pos hlt (by norm_num)
    have hceil : ⌈a / 360⌉ = 0 := by
      rw [Int.ceil_eq_zero_iff, Set.mem_Ioc]
      refine ⟨?_, le_of_lt hq⟩
      rw [lt_div_iff (by norm_num : (0:ℚ) < 360)]
      linarith
    unfold jsMod ratTrunc
    rw [if_pos hq, hceil]
    push_cast
    ring

lemma normHue_eval_small {a : ℚ} (h0 : 0 ≤ a) (h1 : a < 360) : normHue a = a := by
  unfold normHue
  rw [jsMod_eq_self h0 h1, jsMod_eq_sub (by linarith) (by linarith)]
  ring

/-! ### Claim C4, C7, C8 -/

lemma exists_normHue_of_mem_evenlySpaced {x a : ℚ} {c : ℤ}
    (hx : x ∈ evenlySpaced a c) : ∃ y, x = normHue y := by
  unfold evenlySpaced at hx
  simp only [List.mem_map] at hx
  obtain ⟨i, -, rfl⟩ := hx
  exact ⟨_, rfl⟩

lemma exists_normHue_of_mem_fromKeyAngles {x a : ℚ} {c : ℤ} {keys : List ℚ}
    (hx : x ∈ fromKeyAngles a c keys) : ∃ y, x = normHue y := by
  unfold fromKeyAngles at hx
  simp only [List.mem_append, List.mem_map] at hx
  rcases hx with ⟨y, -, rfl⟩ | ⟨i, -, rfl⟩ <;> exact ⟨_, rfl⟩

lemma exists_normHue_of_mem_analogousAux {x a : ℚ} :
    ∀ k i, x ∈ analogousAux a k i → ∃ y, x = normHue y := by
  intro k
  induction k using Nat.strong_induction_on with
  | _ k ih =>
    intro i hx
    match k with
    | 0 => simp [analogousAux] at hx
    | 1 =>
      simp only [analogousAux, List.mem_singleton] at hx
      exact ⟨_, hx⟩
    | k + 2 =>
      simp only [analogousAux, List.mem_cons] at hx
      rcases hx with rfl | rfl | hx
      · exact ⟨_, rfl⟩
      · exact ⟨_, rfl⟩
      · exact ih k (by omega) (i + 1) hx

/-- **C4** (amended). Every hue produced by `generateHues` — any strategy
name, any count — lies in `[0, 360)`, provided the anchor angle itself lies
in `[0, 360)`. (For anchors outside that range the `analogous` strategy
returns the raw anchor as its first hue, so the restriction is necessary;
see the counterexample.) -/
theorem generateHues_mem_Ico_of_anchor_mem_Ico (a : ℚ) (count : ℤ) (s : String)
    (h0 : 0 ≤ a) (h1 : a < 360) :
    ∀ x ∈ generateHues a count s, 0 ≤ x ∧ x < 360 := by
  intro x hx
  unfold generateHues at hx
  split_ifs at hx
  · obtain ⟨y, rfl⟩ := exists_normHue_of_mem_evenlySpaced hx
    exact normHue_range y
  · unfold analogous at hx
    rcases List.mem_cons.mp hx with rfl | hx'
    · exact ⟨h0, h1⟩
    · obtain ⟨y, rfl⟩ := exists_normHue_of_mem_analogousAux _ _ hx'
      exact normHue_range y
  · obtain ⟨y, rfl⟩ := exists_normHue_of_mem_fromKeyAngles hx
    exact normHue_range y
  · obtain ⟨y, rfl⟩ := exists_normHue_of_mem_fromKeyAngles hx
    exact normHue_range y
  · obtain ⟨y, rfl⟩ := exists_normHue_of_mem_fromKeyAngles hx
    exact normHue_range y
  · obtain ⟨y, rfl⟩ := exists_normHue_of_mem_fromKeyAngles hx
    exact normHue_range y
  · obtain ⟨y, rfl⟩ := exists_normHue_of_mem_evenlySpaced hx
    exact normHue_range y

/-- Witness for C4's theorem at anchor 10, count 5, strategy `analogous`. -/
theorem generateHues_mem_Ico_witness :
    (0 : ℚ) ≤ 10 ∧ (10 : ℚ) < 360 ∧
      ∀ x ∈ generateHues 10 5 "analogous", 0 ≤ x ∧ x < 360 :=
  ⟨by norm_num, by norm_num,
    generateHues_mem_Ico_of_anchor_mem_Ico 10 5 "analogous" (by norm_num) (by norm_num)⟩

/-- **C4** counterexample to the claim as stated: with a negative anchor the
`analogous` strategy returns the raw anchor `-30`, which is not in `[0, 360)`. -/
theorem generateHues_analogous_raw_anchor_counterexample :
    generateHues (-30) 1 "analogous" = [-30] ∧ ¬ (0 ≤ (-30 : ℚ)) := by
  constructor
  · rfl
  · norm_num

/-- For a name that is none of the six own keys, the own-key dispatch
`generateHues` takes its fallback branch. -/
lemma generateHues_fallback_of_not_mem (a : ℚ) (count : ℤ) (s : String)
    (hs : s ∉ STRATEGY_NAMES) :
    generateHues a count s = generateHues a count "evenly-spaced" := by
  simp only [STRATEGY_NAMES, List.mem_cons, List.not_mem_nil, or_false, not_or] at hs
  obtain ⟨h1, h2, h3, h4, h5, h6⟩ := hs
  unfold generateHues
  rw [if_neg h1, if_neg h2, if_neg h3, if_neg h4, if_neg h5, if_neg h6,
    if_pos (rfl : "evenly-spaced" = "evenly-spaced")]

lemma generateHues_evenly_spaced (a : ℚ) (count : ℤ) :
    generateHues a count "evenly-spaced" = evenlySpaced a count := by
  unfold generateHues
  rw [if_pos (rfl : "evenly-spaced" = "evenly-spaced")]

/-- The member names an object literal inherits from `Object.prototype`.
For these names `strategies[name]` yields a truthy inherited value (a
function, or `Object.prototype` itself for `__proto__`), so the `||`
fallback of `generateHues` is NOT taken. -/
def OBJECT_PROTOTYPE_MEMBERS : List String :=
  ["constructor", "hasOwnProperty", "isPrototypeOf", "propertyIsEnumerable",
   "toLocaleString", "toString", "valueOf", "__proto__",
   "__defineGetter__", "__defineSetter__", "__lookupGetter__",
   "__lookupSetter__"]

/-- Outcome of the strategy dispatch under full JavaScript property-lookup
semantics: either a hue list, or the non-hue outcome reached when the lookup
hits a member inherited from `Object.prototype` — the inherited value is
called in place of a strategy and does not produce a hue list (in the source
`toString`-like members return a string such as `"[object Undefined]"`, and
members like `hasOwnProperty` or the non-function `__proto__` throw a
`TypeError`). -/
inductive JsHuesResult
  | hues (l : List ℚ)
  | inherited (name : String)

/-- `generateHues(anchorHue, count, strategy)` under full JavaScript
semantics: the lookup `strategies[strategy]` sees the six own keys first,
then the members inherited from `Object.prototype` (truthy, so no
fallback), and only a complete miss (`undefined`, falsy) falls back to
`evenly-spaced`. The own-key/fallback part is `generateHues`. -/
def generateHuesJs (anchorHue : ℚ) (count : ℤ) (strategy : String) : JsHuesResult :=
  if strategy ∈ OBJECT_PROTOTYPE_MEMBERS then JsHuesResult.inherited strategy
  else JsHuesResult.hues (generateHues anchorHue count strategy)

/-- **C7** (amended). A strategy name that is neither one of the six known
names nor a member inherited from `Object.prototype` misses the lookup
entirely, and `generateHues` falls back to `evenly-spaced`: the call returns
exactly the evenly-spaced hue sequence, without failing. (For inherited
member names such as `"toString"` the source does NOT fall back — see the
counterexample.) -/
theorem generateHuesJs_unknown_fallback (a : ℚ) (count : ℤ) (s : String)
    (hs : s ∉ STRATEGY_NAMES) (hp : s ∉ OBJECT_PROTOTYPE_MEMBERS) :
    generateHuesJs a count s = generateHuesJs a count "evenly-spaced" ∧
      generateHuesJs a count s = JsHuesResult.hues (evenlySpaced a count) := by
  have hev : ("evenly-spaced" : String) ∉ OBJECT_PROTOTYPE_MEMBERS := by decide
  have hfall : generateHues a count s = evenlySpaced a count := by
    rw [generateHues_fallback_of_not_mem a count s hs, generateHues_evenly_spaced]
  unfold generateHuesJs
  rw [if_neg hp, if_neg hev, hfall, generateHues_evenly_spaced]
  exact ⟨rfl, rfl⟩

/-- Witness for C7's theorem at the unknown (and non-inherited) strategy
name `"bogus"`. -/
theorem generateHuesJs_unknown_fallback_witness :
    "bogus" ∉ STRATEGY_NAMES ∧ "bogus" ∉ OBJECT_PROTOTYPE_MEMBERS ∧
      (generateHuesJs 10 3 "bogus" = generateHuesJs 10 3 "evenly-spaced" ∧
        generateHuesJs 10 3 "bogus" = JsHuesResult.hues (evenlySpaced 10 3)) :=
  ⟨by decide, by decide,
    generateHuesJs_unknown_fallback 10 3 "bogus" (by decide) (by decide)⟩

/-- **C7** counterexample to the claim as stated: `"toString"` is not one of
the six known strategy names, yet the source does not fall back to
`evenly-spaced` — the lookup finds the truthy inherited
`Object.prototype.toString`, which is called in place of a strategy and
yields no hue sequence at all. -/
theorem generateHuesJs_toString_counterexample :
    "toString" ∉ STRATEGY_NAMES ∧
      generateHuesJs 10 3 "toString" = JsHuesResult.inherited "toString" ∧
      generateHuesJs 10 3 "toString" ≠ generateHuesJs 10 3 "evenly-spaced" ∧
      ∀ l : List ℚ, generateHuesJs 10 3 "toString" ≠ JsHuesResult.hues l := by
  have hts : generateHuesJs 10 3 "toString" = JsHuesResult.inherited "toString" := by
    unfold generateHuesJs
    rw [if_pos (by decide : ("toString" : String) ∈ OBJECT_PROTOTYPE_MEMBERS)]
  have hev : generateHuesJs 10 3 "evenly-spaced"
      = JsHuesResult.hues (generateHues 10 3 "evenly-spaced") := by
    unfold generateHuesJs
    rw [if_neg (by decide : ¬ ("evenly-spaced" : String) ∈ OBJECT_PROTOTYPE_MEMBERS)]
  refine ⟨by decide, hts, ?_, ?_⟩
  · rw [hts, hev]
    intro hcon
    exact JsHuesResult.noConfusion hcon
  · intro l hcon
    rw [hts] at hcon
    exact JsHuesResult.noConfusion hcon

/-- **C8** (amended). `generateHues` is a total function: `evenly-spaced`
with count 1 yields the single normalized anchor hue, and a non-positive
count yields the empty hue list — no `InvalidCount` error exists in the
code and no division by zero is performed. -/
theorem generateHues_degenerate_count (a : ℚ) (count : ℤ) :
    generateHues a 1 "evenly-spaced" = [normHue a] ∧
      (count ≤ 0 → generateHues a count "evenly-spaced" = []) := by
  constructor
  · unfold generateHues
    rw [if_pos (rfl : "evenly-spaced" = "evenly-spaced")]
    unfold evenlySpaced
    rw [show (1 : ℤ).toNat = 1 from rfl, List.range_succ, List.range_zero]
    simp
  · intro hc
    unfold generateHues
    rw [if_pos (rfl : "evenly-spaced" = "evenly-spaced")]
    unfold evenlySpaced
    rw [Int.toNat_of_nonpos hc, List.range_zero, List.map_nil]

/-- Witness for C8's theorem at anchor 45 and count `-3`. -/
theorem generateHues_degenerate_count_witness :
    generateHues 45 1 "evenly-spaced" = [normHue 45] ∧
      generateHues 45 (-3) "evenly-spaced" = [] :=
  ⟨(generateHues_degenerate_count 45 (-3)).1,
    (generateHues_degenerate_count 45 (-3)).2 (by norm_num)⟩

/-- **C8** counterexample to the claim as stated: for a non-positive count
the code does not fail with an `InvalidCount` error — it returns the empty
list as an ordinary value. -/
theorem generateHues_nonpositive_count_returns_nil :
    generateHues 7 (-5) "evenly-spaced" = [] := by
  rfl

/-! ## `src/cli.js`: `fillLargestGaps` -/

/-- Insertion into a sorted list; building block for the numeric sort. -/
def insertSorted (x : ℚ) : List ℚ → List ℚ
  | [] => [x]
  | y :: ys => if x ≤ y then x :: y :: ys else y :: insertSorted x ys

/-- JavaScript `[...hues].sort((a, b) => a - b)`: ascending numeric sort. -/
def sortHues (l : List ℚ) : List ℚ :=
  l.foldr insertSorted []

/-- The circular gap following index `i` of the sorted hue list: for the last
index the gap wraps around to the first hue (`360 - sorted[i] + sorted[0]`). -/
def gapAt (sorted : List ℚ) (i : ℕ) : ℚ :=
  if i + 1 < sorted.length then sorted.getD (i + 1) 0 - sorted.getD i 0
  else 360 - sorted.getD i 0 + sorted.getD 0 0

/-- The midpoint hue inserted for the gap following index `i`:
`(sorted[i] + gap / 2) % 360`. -/
def midAt (sorted : List ℚ) (i : ℕ) : ℚ :=
  jsMod (sorted.getD i 0 + gapAt sorted i / 2) 360

/-- The inner loop of `fillLargestGaps`, carrying the running
`(maxGap, bestMid)` state (initially `(0, 0)`); a gap wins only when it is
strictly larger than the running maximum, so ties keep the first find. -/
def bestMidAux (sorted : List ℚ) : List ℕ → ℚ × ℚ → ℚ × ℚ
  | [], st => st
  | i :: is, st =>
    bestMidAux sorted is
      (if st.1 < gapAt sorted i then (gapAt sorted i, midAt sorted i) else st)

/-- One iteration of the outer loop of `fillLargestGaps`: the midpoint of the
first-found largest circular gap of the current hue set. -/
def fillStep (hues : List ℚ) : ℚ :=
  let sorted := sortHues hues
  (bestMidAux sorted (List.range sorted.length) (0, 0)).2

/-- `fillLargestGaps(existingHues, needed)` from `src/cli.js`: repeatedly
insert the midpoint of the largest circular gap, adding each new hue to the
working set before computing the next gap. -/
def fillLargestGaps (hues : List ℚ) : ℕ → List ℚ
  | 0 => []
  | n + 1 => fillStep hues :: fillLargestGaps (hues ++ [fillStep hues]) n

lemma insertSorted_length (x : ℚ) (l : List ℚ) :
    (insertSorted x l).length = l.length + 1 := by
  induction l with
  | nil => rfl
  | cons y ys ih =>
    unfold insertSorted
    split_ifs
    · simp
    · simp [ih]

lemma sortHues_length (l : List ℚ) : (sortHues l).length = l.length := by
  induction l with
  | nil => rfl
  | cons x xs ih =>
    show (insertSorted x (sortHues xs)).length = xs.length + 1
    rw [insertSorted_length, ih]

/-- The circular gaps of a nonempty sorted hue list sum to the full turn. -/
lemma gapAt_sum (s : List ℚ) (hs : s ≠ []) :
    ∑ i in Finset.range s.length, gapAt s i = 360 := by
  obtain ⟨n, hn⟩ : ∃ n, s.length = n + 1 := by
    cases s with
    | nil => exact absurd rfl hs
    | cons x xs => exact ⟨xs.length, rfl⟩
  rw [hn, Finset.sum_range_succ]
  have hmain : ∑ i in Finset.range n, gapAt s i
      = ∑ i in Finset.range n, (s.getD (i + 1) 0 - s.getD i 0) := by
    refine Finset.sum_congr rfl fun i hi => ?_
    rw [Finset.mem_range] at hi
    unfold gapAt
    rw [if_pos (by omega)]
  rw [hmain, Finset.sum_range_sub (fun i => s.getD i 0)]
  unfold gapAt
  rw [if_neg (by omega)]
  ring

/-- Some circular gap of a nonempty hue list is strictly positive. -/
lemma exists_pos_gapAt (s : List ℚ) (hs : s ≠ []) :
    ∃ i, i < s.length ∧ 0 < gapAt s i := by
  by_contra hcon
  push_neg at hcon
  have hsum : ∑ i in Finset.range s.length, gapAt s i ≤ 0 :=
    Finset.sum_nonpos fun i hi => hcon i (Finset.mem_range.mp hi)
  rw [gapAt_sum s hs] at hsum
  norm_num at hsum

/-- Characterization of the inner loop over an index interval: either no gap
beats the running maximum and the state is returned unchanged, or the result
is the gap/midpoint of the first index attaining the maximum. -/
lemma bestMidAux_char (s : List ℚ) :
    ∀ (b a : ℕ) (mg bm : ℚ),
      ((∀ i, a ≤ i → i < a + b → gapAt s i ≤ mg) ∧
        bestMidAux s (List.range' a b) (mg, bm) = (mg, bm)) ∨
      (∃ j, a ≤ j ∧ j < a + b ∧ mg < gapAt s j ∧
        (∀ i, a ≤ i → i < j → gapAt s i < gapAt s j) ∧
        (∀ i, j < i → i < a + b → gapAt s i ≤ gapAt s j) ∧
        bestMidAux s (List.range' a b) (mg, bm) = (gapAt s j, midAt s j)) := by
  intro b
  induction b with
  | zero =>
    intro a mg bm
    left
    exact ⟨fun i h1 h2 => absurd h2 (by omega), rfl⟩
  | succ b ih =>
    intro a mg bm
    rw [List.range'_succ]
    by_cases hga : mg < gapAt s a
    · have hstep : bestMidAux s (a :: List.range' (a + 1) b) (mg, bm)
          = bestMidAux s (List.range' (a + 1) b) (gapAt s a, midAt s a) := by
        simp only [bestMidAux, if_pos hga]
      rcases ih (a + 1) (gapAt s a) (midAt s a) with ⟨hall, heq⟩ |
        ⟨j, hj1, hj2, hj3, hlt, hle, heq⟩
      · right
        refine ⟨a, le_rfl, by omega, hga, fun i h1 h2 => absurd h2 (by omega),
          fun i h1 h2 => hall i (by omega) (by omega), ?_⟩
        rw [hstep, heq]
      · right
        refine ⟨j, by omega, by omega, lt_trans hga hj3, ?_, ?_, ?_⟩
        · intro i h1 h2
          rcases Nat.eq_or_lt_of_le h1 with rfl | h1'
          · exact hj3
          · exact hlt i (by omega) h2
        · intro i h1 h2
          exact hle i h1 (by omega)
        · rw [hstep, heq]
    · have hstep : bestMidAux s (a :: List.range' (a + 1) b) (mg, bm)
          = bestMidAux s (List.range' (a + 1) b) (mg, bm) := by
        simp only [bestMidAux, if_neg hga]
      have hga' : gapAt s a ≤ mg := not_lt.mp hga
      rcases ih (a + 1) mg bm with ⟨hall, heq⟩ | ⟨j, hj1, hj2, hj3, hlt, hle, heq⟩
      · left
        refine ⟨?_, by rw [hstep, heq]⟩
        intro i h1 h2
        rcases Nat.eq_or_lt_of_le h1 with rfl | h1'
        · exact hga'
        · exact hall i (by omega) (by omega)
      · right
        refine ⟨j, by omega, by omega, hj3, ?_, fun i h1 h2 => hle i h1 (by omega), ?_⟩
        · intro i h1 h2
          rcases Nat.eq_or_lt_of_le h1 with rfl | h1'
          · exact lt_of_le_of_lt hga' hj3
          · exact hlt i (by omega) h2
        · rw [hstep, heq]

/-- `fillStep` picks the midpoint of the first-found largest circular gap. -/
lemma fillStep_char (hues : List ℚ) (hne : hues ≠ []) :
    ∃ j, j < (sortHues hues).length ∧
      (∀ i, i < (sortHues hues).length →
        gapAt (sortHues hues) i ≤ gapAt (sortHues hues) j) ∧
      (∀ i, i < j → gapAt (sortHues hues) i < gapAt (sortHues hues) j) ∧
      fillStep hues = midAt (sortHues hues) j := by
  have hslen : (sortHues hues).length = hues.length := sortHues_length hues
  have hsne : sortHues hues ≠ [] := by
    intro h
    apply hne
    have := sortHues_length hues
    rw [h] at this
    exact List.length_eq_zero.mp this.symm
  rcases bestMidAux_char (sortHues hues) (sortHues hues).length 0 0 0 with
    ⟨hall, heq⟩ | ⟨j, hj1, hj2, hj3, hlt, hle, heq⟩
  · obtain ⟨i, hi, hpos⟩ := exists_pos_gapAt (sortHues hues) hsne
    exact absurd (hall i (by omega) (by omega)) (by linarith)
  · refine ⟨j, by omega, ?_, fun i h2 => hlt i (by omega) h2, ?_⟩
    · intro i hi
      rcases lt_trichotomy i j with h | rfl | h
      · exact le_of_lt (hlt i (by omega) h)
      · exact le_rfl
      · exact hle i h (by omega)
    · rw [← List.range_eq_range'] at heq
      show (bestMidAux (sortHues hues) (List.range (sortHues hues).length) (0, 0)).2
          = midAt (sortHues hues) j
      rw [heq]

lemma sortHues_zero_180 : sortHues [(0 : ℚ), 180] = [0, 180] := by
  show insertSorted 0 (insertSorted 180 []) = [0, 180]
  simp only [insertSorted]
  norm_num

lemma gapAt_zero_180_0 : gapAt [(0 : ℚ), 180] 0 = 180 := by
  unfold gapAt
  norm_num

lemma gapAt_zero_180_1 : gapAt [(0 : ℚ), 180] 1 = 180 := by
  unfold gapAt
  norm_num

lemma midAt_zero_180_0 : midAt [(0 : ℚ), 180] 0 = 90 := by
  unfold midAt
  rw [gapAt_zero_180_0]
  norm_num
  rw [jsMod_eq_self] <;> norm_num

lemma fillStep_zero_180 : fillStep [(0 : ℚ), 180] = 90 := by
  show (bestMidAux (sortHues [(0:ℚ), 180])
    (List.range (sortHues [(0:ℚ), 180]).length) (0, 0)).2 = 90
  rw [sortHues_zero_180]
  rw [show List.range ([(0:ℚ), 180].length) = [0, 1] from rfl]
  show (bestMidAux [(0:ℚ), 180] [1]
    (if (0:ℚ) < gapAt [(0:ℚ), 180] 0 then (gapAt [(0:ℚ), 180] 0, midAt [(0:ℚ), 180] 0)
     else (0, 0))).2 = 90
  rw [gapAt_zero_180_0, midAt_zero_180_0, if_pos (by norm_num : (0:ℚ) < 180)]
  show (bestMidAux [(0:ℚ), 180] []
    (if (180:ℚ) < gapAt [(0:ℚ), 180] 1 then (gapAt [(0:ℚ), 180] 1, midAt [(0:ℚ), 180] 1)
     else (180, 90))).2 = 90
  rw [gapAt_zero_180_1, if_neg (by norm_num : ¬ (180:ℚ) < 180)]
  rfl

/-- **C9**. Gap-filling is greedy, one hue at a time: the next hue is the
midpoint of the first-found largest circular gap (wrap-around included) of
the *current* working set, which immediately absorbs the new hue before the
next gap is computed; for anchors `[0, 180]` and one needed hue the filled
hue is `90` (the first-found of the two tied 180° gaps). -/
theorem fillLargestGaps_greedy (hues : List ℚ) (n : ℕ) (hne : hues ≠ []) :
    (fillLargestGaps hues (n + 1) =
        fillStep hues :: fillLargestGaps (hues ++ [fillStep hues]) n) ∧
      (∃ j, j < (sortHues hues).length ∧
        (∀ i, i < (sortHues hues).length →
          gapAt (sortHues hues) i ≤ gapAt (sortHues hues) j) ∧
        (∀ i, i < j → gapAt (sortHues hues) i < gapAt (sortHues hues) j) ∧
        fillStep hues = midAt (sortHues hues) j) ∧
      fillLargestGaps [0, 180] 1 = [90] := by
  refine ⟨rfl, fillStep_char hues hne, ?_⟩
  show [fillStep [(0:ℚ), 180]] = [90]
  rw [fillStep_zero_180]

/-- Witness for C9's theorem at the hue set `[0, 180]`. -/
theorem fillLargestGaps_greedy_witness :
    [(0 : ℚ), 180] ≠ [] ∧
      (fillLargestGaps [(0 : ℚ), 180] 1 =
          fillStep [(0 : ℚ), 180] :: fillLargestGaps ([(0 : ℚ), 180] ++ [fillStep [(0 : ℚ), 180]]) 0) ∧
      (∃ j, j < (sortHues [(0 : ℚ), 180]).length ∧
        (∀ i, i < (sortHues [(0 : ℚ), 180]).length →
          gapAt (sortHues [(0 : ℚ), 180]) i ≤ gapAt (sortHues [(0 : ℚ), 180]) j) ∧
        (∀ i, i < j → gapAt (sortHues [(0 : ℚ), 180]) i < gapAt (sortHues [(0 : ℚ), 180]) j) ∧
        fillStep [(0 : ℚ), 180] = midAt (sortHues [(0 : ℚ), 180]) j) ∧
      fillLargestGaps [0, 180] 1 = [90] :=
  ⟨by simp, fillLargestGaps_greedy [(0 : ℚ), 180] 0 (by simp)⟩

/-! ## `src/lib/color.js`: hex parsing and byte packing -/

/-- The hex-digit character class `[0-9a-fA-F]` of the validator regex. -/
def isHexDigit (c : Char) : Bool :=
  ('0' ≤ c && c ≤ '9') || ('a' ≤ c && c ≤ 'f') || ('A' ≤ c && c ≤ 'F')

/-- Numeric value of one hex digit (per-digit `parseInt(_, 16)`); characters
outside the class map to 0 — the source never reaches them on validated
input, where `parseInt` would instead produce `NaN`. -/
def hexVal (c : Char) : ℕ :=
  if '0' ≤ c ∧ c ≤ '9' then c.toNat - 48
  else if 'a' ≤ c ∧ c ≤ 'f' then c.toNat - 87
  else if 'A' ≤ c ∧ c ≤ 'F' then c.toNat - 55
  else 0

/-- `hex.replace('#', '')`: drops the first occurrence of `'#'`. -/
def removeFirstHash : List Char → List Char
  | [] => []
  | c :: cs => if c = '#' then cs else c :: removeFirstHash cs

/-- `parseInt` of a two-hex-digit slice. -/
def parseHexPair (c₁ c₂ : Char) : ℕ :=
  16 * hexVal c₁ + hexVal c₂

/-- `hexToRgb(hex)` from `color.js`: strip the `#`, expand a 3-digit form by
doubling each digit, then parse the three 2-digit channel slices. -/
def hexToRgb (hex : String) : ℕ × ℕ × ℕ :=
  let cs := removeFirstHash hex.toList
  let cs := if cs.length = 3 then
      [cs.getD 0 ' ', cs.getD 0 ' ', cs.getD 1 ' ', cs.getD 1 ' ',
       cs.getD 2 ' ', cs.getD 2 ' ']
    else cs
  (parseHexPair (cs.getD 0 ' ') (cs.getD 1 ' '),
   parseHexPair (cs.getD 2 ' ') (cs.getD 3 ' '),
   parseHexPair (cs.getD 4 ' ') (cs.getD 5 ' '))

/-- `Math.round` (round half toward positive infinity), exact-real model. -/
noncomputable def jsRound (x : ℝ) : ℤ :=
  ⌊x + 1 / 2⌋

/-- The per-channel clamp of `rgbToHex`:
`Math.max(0, Math.min(255, Math.round(v)))`. -/
noncomputable def jsClampByte (v : ℝ) : ℕ :=
  (max 0 (min 255 (jsRound v))).toNat

/-- Lowercase hex digit character for a value `0..15`
(`Number.prototype.toString(16)` digit alphabet). -/
def toHexChar (n : ℕ) : Char :=
  if n < 10 then Char.ofNat (48 + n) else Char.ofNat (87 + n)

/-- Two-digit lowercase hex rendering (`toString(16).padStart(2, '0')`). -/
def toHex2 (n : ℕ) : List Char :=
  [toHexChar (n / 16), toHexChar (n % 16)]

/-- `rgbToHex(r, g, b)` from `color.js`: clamp and round each channel, then
emit the lowercase `#rrggbb` form. -/
noncomputable def rgbToHex (r g b : ℝ) : String :=
  ⟨'#' :: (toHex2 (jsClampByte r) ++ toHex2 (jsClampByte g) ++ toHex2 (jsClampByte b))⟩

/-- `isValidHex(hex)` from `src/cli.js`:
`/^#([0-9a-fA-F]{3}|[0-9a-fA-F]{6})$/`. -/
def isValidHex (hex : String) : Bool :=
  match hex.toList with
  | '#' :: rest => (rest.length = 3 || rest.length = 6) && rest.all isHexDigit
  | _ => false

/-- The lowercase hex-digit class `[0-9a-f]`. -/
def isLowerHexDigit (c : Char) : Bool :=
  ('0' ≤ c && c ≤ '9') || ('a' ≤ c && c ≤ 'f')

/-- A 6-digit lowercase hex color string `#rrggbb`. -/
def isLowerHex6 (s : String) : Bool :=
  match s.toList with
  | '#' :: rest => rest.length = 6 && rest.all isLowerHexDigit
  | _ => false

lemma char_le_iff_toNat {a b : Char} : a ≤ b ↔ a.toNat ≤ b.toNat := by
  rw [Char.le_def, UInt32.le_def, BitVec.le_def]
  exact Iff.rfl

lemma lowerHexDigit_toNat {c : Char} (hc : isLowerHexDigit c = true) :
    (48 ≤ c.toNat ∧ c.toNat ≤ 57) ∨ (97 ≤ c.toNat ∧ c.toNat ≤ 102) := by
  simp only [isLowerHexDigit, Bool.or_eq_true, Bool.and_eq_true,
    decide_eq_true_eq, char_le_iff_toNat] at hc
  rcases hc with ⟨h1, h2⟩ | ⟨h1, h2⟩
  · exact Or.inl ⟨h1, h2⟩
  · exact Or.inr ⟨h1, h2⟩

lemma hexVal_eval_digit {c : Char} (h1 : 48 ≤ c.toNat) (h2 : c.toNat ≤ 57) :
    hexVal c = c.toNat - 48 := by
  have hcond : '0' ≤ c ∧ c ≤ '9' := by
    refine ⟨?_, ?_⟩ <;> rw [char_le_iff_toNat]
    · exact h1
    · exact h2
  unfold hexVal
  rw [if_pos hcond]

lemma hexVal_eval_lower {c : Char} (h1 : 97 ≤ c.toNat) (h2 : c.toNat ≤ 102) :
    hexVal c = c.toNat - 87 := by
  have hA : ¬ ('0' ≤ c ∧ c ≤ '9') := by
    intro hcon
    have hb := char_le_iff_toNat.mp hcon.2
    have hb' : c.toNat ≤ 57 := hb
    omega
  have hB : 'a' ≤ c ∧ c ≤ 'f' := by
    refine ⟨?_, ?_⟩ <;> rw [char_le_iff_toNat]
    · exact h1
    · exact h2
  unfold hexVal
  rw [if_neg hA, if_pos hB]

lemma hexVal_lt_16 {c : Char} (hc : isLowerHexDigit c = true) : hexVal c < 16 := by
  rcases lowerHexDigit_toNat hc with ⟨h1, h2⟩ | ⟨h1, h2⟩
  · rw [hexVal_eval_digit h1 h2]
    omega
  · rw [hexVal_eval_lower h1 h2]
    omega

lemma toHexChar_hexVal {c : Char} (hc : isLowerHexDigit c = true) :
    toHexChar (hexVal c) = c := by
  rcases lowerHexDigit_toNat hc with ⟨h1, h2⟩ | ⟨h1, h2⟩
  · rw [hexVal_eval_digit h1 h2]
    unfold toHexChar
    rw [if_pos (by omega), show 48 + (c.toNat - 48) = c.toNat by omega]
    exact Char.ofNat_toNat c
  · rw [hexVal_eval_lower h1 h2]
    unfold toHexChar
    rw [if_neg (by omega), show 87 + (c.toNat - 87) = c.toNat by omega]
    exact Char.ofNat_toNat c

lemma toHex2_parseHexPair {c d : Char} (hc : isLowerHexDigit c = true)
    (hd : isLowerHexDigit d = true) :
    toHex2 (parseHexPair c d) = [c, d] := by
  have h1 := hexVal_lt_16 hc
  have h2 := hexVal_lt_16 hd
  unfold toHex2 parseHexPair
  rw [show (16 * hexVal c + hexVal d) / 16 = hexVal c by omega,
    show (16 * hexVal c + hexVal d) % 16 = hexVal d by omega,
    toHexChar_hexVal hc, toHexChar_hexVal hd]

lemma parseHexPair_le_255 {c d : Char} (hc : isLowerHexDigit c = true)
    (hd : isLowerHexDigit d = true) : parseHexPair c d ≤ 255 := by
  have h1 := hexVal_lt_16 hc
  have h2 := hexVal_lt_16 hd
  unfold parseHexPair
  omega

lemma jsClampByte_natCast {n : ℕ} (hn : n ≤ 255) : jsClampByte (n : ℝ) = n := by
  have hfloor : jsRound (n : ℝ) = (n : ℤ) := by
    unfold jsRound
    rw [Int.floor_eq_iff]
    constructor <;> push_cast <;> linarith
  unfold jsClampByte
  rw [hfloor]
  omega

lemma jsClampByte_le_255 (v : ℝ) : jsClampByte v ≤ 255 := by
  unfold jsClampByte
  omega

lemma isLowerHexDigit_toHexChar {n : ℕ} (hn : n < 16) :
    isLowerHexDigit (toHexChar n) = true := by
  interval_cases n <;> decide

lemma isLowerHex6_mk_cons (l : List Char) :
    isLowerHex6 ⟨'#' :: l⟩ = (decide (l.length = 6) && l.all isLowerHexDigit) := rfl

lemma rgbToHex_isLowerHex6 (r g b : ℝ) : isLowerHex6 (rgbToHex r g b) = true := by
  have hr := jsClampByte_le_255 r
  have hg := jsClampByte_le_255 g
  have hb := jsClampByte_le_255 b
  show isLowerHex6 ⟨'#' :: (toHex2 (jsClampByte r) ++ toHex2 (jsClampByte g) ++
    toHex2 (jsClampByte b))⟩ = true
  rw [isLowerHex6_mk_cons, Bool.and_eq_true]
  constructor
  · simp [toHex2]
  · rw [List.all_eq_true]
    intro x hx
    simp only [toHex2, List.mem_append, List.mem_cons, List.not_mem_nil, or_false] at hx
    rcases hx with ((rfl | rfl) | (rfl | rfl)) | (rfl | rfl) <;>
      exact isLowerHexDigit_toHexChar (by omega)

lemma roundtrip_lower_aux (s : String) (hs : isLowerHex6 s = true) :
    rgbToHex ((hexToRgb s).1 : ℝ) ((hexToRgb s).2.1 : ℝ) ((hexToRgb s).2.2 : ℝ) = s := by
  unfold isLowerHex6 at hs
  split at hs
  case h_2 => exact absurd hs (by simp)
  case h_1 rest heq =>
    rw [Bool.and_eq_true] at hs
    obtain ⟨hlen, hall⟩ := hs
    have hlen' : rest.length = 6 := of_decide_eq_true hlen
    rw [List.all_eq_true] at hall
    rcases rest with _ | ⟨c1, rest⟩
    · simp at hlen'
    rcases rest with _ | ⟨c2, rest⟩
    · simp at hlen'
    rcases rest with _ | ⟨c3, rest⟩
    · simp at hlen'
    rcases rest with _ | ⟨c4, rest⟩
    · simp at hlen'
    rcases rest with _ | ⟨c5, rest⟩
    · simp at hlen'
    rcases rest with _ | ⟨c6, rest⟩
    · simp at hlen'
    rcases rest with _ | ⟨c7, rest⟩
    case cons =>
      simp at hlen'
    have hc1 : isLowerHexDigit c1 = true := hall c1 (by simp)
    have hc2 : isLowerHexDigit c2 = true := hall c2 (by simp)
    have hc3 : isLowerHexDigit c3 = true := hall c3 (by simp)
    have hc4 : isLowerHexDigit c4 = true := hall c4 (by simp)
    have hc5 : isLowerHexDigit c5 = true := hall c5 (by simp)
    have hc6 : isLowerHexDigit c6 = true := hall c6 (by simp)
    have hrgb : hexToRgb s =
        (parseHexPair c1 c2, parseHexPair c3 c4, parseHexPair c5 c6) := by
      unfold hexToRgb
      rw [heq]
      rfl
    rw [hrgb]
    show rgbToHex (parseHexPair c1 c2 : ℝ) (parseHexPair c3 c4 : ℝ)
      (parseHexPair c5 c6 : ℝ) = s
    unfold rgbToHex
    rw [jsClampByte_natCast (parseHexPair_le_255 hc1 hc2),
      jsClampByte_natCast (parseHexPair_le_255 hc3 hc4),
      jsClampByte_natCast (parseHexPair_le_255 hc5 hc6),
      toHex2_parseHexPair hc1 hc2, toHex2_parseHexPair hc3 hc4,
      toHex2_parseHexPair hc5 hc6]
    cases s with
    | mk data =>
      have hdata : data = '#' :: c1 :: c2 :: c3 :: c4 :: c5 :: c6 :: [] := heq
      rw [hdata]
      rfl

/-- **C5** (amended). Hex round-trip identity: for every valid *lowercase*
6-digit hex color string, `hexToRgb` followed by `rgbToHex` reproduces the
identical string, and `rgbToHex` always emits the lowercase 6-digit form
with a leading `#`. (A valid uppercase input is mapped to its lowercase
equivalent, not to itself — see the counterexample.) -/
theorem hexToRgb_rgbToHex_roundtrip :
    (∀ s : String, isLowerHex6 s = true →
      rgbToHex ((hexToRgb s).1 : ℝ) ((hexToRgb s).2.1 : ℝ) ((hexToRgb s).2.2 : ℝ) = s) ∧
    (∀ r g b : ℝ, isLowerHex6 (rgbToHex r g b) = true) :=
  ⟨roundtrip_lower_aux, rgbToHex_isLowerHex6⟩

/-- Witness for C5's theorem at the concrete string `"#3fa2cb"`. -/
theorem hexToRgb_rgbToHex_roundtrip_witness :
    isLowerHex6 "#3fa2cb" = true ∧
      rgbToHex ((hexToRgb "#3fa2cb").1 : ℝ) ((hexToRgb "#3fa2cb").2.1 : ℝ)
        ((hexToRgb "#3fa2cb").2.2 : ℝ) = "#3fa2cb" :=
  ⟨by decide, hexToRgb_rgbToHex_roundtrip.1 "#3fa2cb" (by decide)⟩

/-- **C5** counterexample to the claim as stated: `"#AABBCC"` is a valid
6-digit hex color (the validator accepts uppercase), but the round trip
returns the lowercase `"#aabbcc"`, not the identical string. -/
theorem rgbToHex_uppercase_counterexample :
    isValidHex "#AABBCC" = true ∧
      rgbToHex ((hexToRgb "#AABBCC").1 : ℝ) ((hexToRgb "#AABBCC").2.1 : ℝ)
        ((hexToRgb "#AABBCC").2.2 : ℝ) ≠ "#AABBCC" := by
  constructor
  · decide
  · have hrgb : hexToRgb "#AABBCC" = (170, 187, 204) := by decide
    rw [hrgb]
    show rgbToHex ((170 : ℕ) : ℝ) ((187 : ℕ) : ℝ) ((204 : ℕ) : ℝ) ≠ "#AABBCC"
    unfold rgbToHex
    rw [jsClampByte_natCast (by norm_num), jsClampByte_natCast (by norm_num),
      jsClampByte_natCast (by norm_num)]
    decide

/-! ## `src/lib/color.js`: the OKLCH pipeline (exact-real model) -/

/-- `srgbToLinear(c)`: normalize a 0–255 channel and linearize via the
piecewise sRGB transfer function. -/
noncomputable def srgbToLinear (c : ℝ) : ℝ :=
  let c := c / 255
  if c ≤ 0.04045 then c / 12.92 else ((c + 0.055) / 1.055) ^ (2.4 : ℝ)

/-- `linearToSrgb(c)` from the source: note that the *linear* value is
clamped into `[0, 1]` before gamma encoding. -/
noncomputable def linearToSrgb (c : ℝ) : ℝ :=
  let c := max 0 (min 1 c)
  (if c ≤ 0.0031308 then c * 12.92 else 1.055 * c ^ ((1 : ℝ) / 2.4) - 0.055) * 255

/-- `Math.cbrt` (exact-real model; odd extension of the cube root). -/
noncomputable def jsCbrt (x : ℝ) : ℝ :=
  if x < 0 then -((-x) ^ ((1 : ℝ) / 3)) else x ^ ((1 : ℝ) / 3)

/-- `Math.atan2(y, x)` (exact-real model via the complex argument, which has
the same `(-π, π]` range and quadrant behavior). -/
noncomputable def jsAtan2 (y x : ℝ) : ℝ :=
  Complex.arg ⟨x, y⟩

/-- `rgbToOklch(r, g, b)` from `color.js`. -/
noncomputable def rgbToOklch (r g b : ℝ) : ℝ × ℝ × ℝ :=
  let lr := srgbToLinear r
  let lg := srgbToLinear g
  let lb := srgbToLinear b
  let l := 0.4122214708 * lr + 0.5363325363 * lg + 0.0514459929 * lb
  let m := 0.2119034982 * lr + 0.6806995451 * lg + 0.1073969566 * lb
  let s := 0.0883024619 * lr + 0.2817188376 * lg + 0.6299787005 * lb
  let lc := jsCbrt l
  let mc := jsCbrt m
  let sc := jsCbrt s
  let L := 0.2104542553 * lc + 0.7936177850 * mc - 0.0040720468 * sc
  let A := 1.9779984951 * lc - 2.4285922050 * mc + 0.4505937099 * sc
  let B := 0.0259040371 * lc + 0.7827717662 * mc - 0.8086757660 * sc
  let C := Real.sqrt (A * A + B * B)
  let H := jsAtan2 B A * 180 / Real.pi
  (L, C, if H < 0 then H + 360 else H)

/-- `oklchToRgb(L, C, H)` from `color.js`. -/
noncomputable def oklchToRgb (L C H : ℝ) : ℝ × ℝ × ℝ :=
  let hRad := H * Real.pi / 180
  let A := C * Real.cos hRad
  let B := C * Real.sin hRad
  let lc := L + 0.3963377774 * A + 0.2158037573 * B
  let mc := L - 0.1055613458 * A - 0.0638541728 * B
  let sc := L - 0.0894841775 * A - 1.2914855480 * B
  let l := lc ^ 3
  let m := mc ^ 3
  let s := sc ^ 3
  let lr := 4.0767416621 * l - 3.3077115913 * m + 0.2309699292 * s
  let lg := -1.2684380046 * l + 2.6097574011 * m - 0.3413193965 * s
  let lb := -0.0041960863 * l - 0.7034186147 * m + 1.7076147010 * s
  (linearToSrgb lr, linearToSrgb lg, linearToSrgb lb)

/-- The inverse sRGB transfer function applied to an *unclamped* linear
value. Modelled from the spec's words for claim C6, which asserts that
intermediate linear values are not clamped. -/
noncomputable def gammaEncodeUnclamped (c : ℝ) : ℝ :=
  (if c ≤ 0.0031308 then c * 12.92 else 1.055 * c ^ ((1 : ℝ) / 2.4) - 0.055) * 255

/-- Reference composition of the OKLCH→RGB inverse path following the
spec's words with NO clamp on intermediate linear values (claim C6 says
`oklchToRgb` equals this). -/
noncomputable def oklchToRgbUnclamped (L C H : ℝ) : ℝ × ℝ × ℝ :=
  let hRad := H * Real.pi / 180
  let A := C * Real.cos hRad
  let B := C * Real.sin hRad
  let lc := L + 0.3963377774 * A + 0.2158037573 * B
  let mc := L - 0.1055613458 * A - 0.0638541728 * B
  let sc := L - 0.0894841775 * A - 1.2914855480 * B
  let l := lc ^ 3
  let m := mc ^ 3
  let s := sc ^ 3
  let lr := 4.0767416621 * l - 3.3077115913 * m + 0.2309699292 * s
  let lg := -1.2684380046 * l + 2.6097574011 * m - 0.3413193965 * s
  let lb := -0.0041960863 * l - 0.7034186147 * m + 1.7076147010 * s
  (gammaEncodeUnclamped lr, gammaEncodeUnclamped lg, gammaEncodeUnclamped lb)

/-- Reference composition of the OKLCH→RGB inverse path with each linear
channel clamped into `[0, 1]` before gamma encoding — this is what the code
actually computes. -/
noncomputable def oklchToRgbClampedRef (L C H : ℝ) : ℝ × ℝ × ℝ :=
  let hRad := H * Real.pi / 180
  let A := C * Real.cos hRad
  let B := C * Real.sin hRad
  let lc := L + 0.3963377774 * A + 0.2158037573 * B
  let mc := L - 0.1055613458 * A - 0.0638541728 * B
  let sc := L - 0.0894841775 * A - 1.2914855480 * B
  let l := lc ^ 3
  let m := mc ^ 3
  let s := sc ^ 3
  let lr := 4.0767416621 * l - 3.3077115913 * m + 0.2309699292 * s
  let lg := -1.2684380046 * l + 2.6097574011 * m - 0.3413193965 * s
  let lb := -0.0041960863 * l - 0.7034186147 * m + 1.7076147010 * s
  (gammaEncodeUnclamped (max 0 (min 1 lr)),
   gammaEncodeUnclamped (max 0 (min 1 lg)),
   gammaEncodeUnclamped (max 0 (min 1 lb)))

/-- **C6** (amended). `oklchToRgb` equals the reference composition in which
each intermediate linear channel IS clamped into `[0, 1]` inside the inverse
transfer function (`linearToSrgb`); the claim's unclamped composition is
refuted by the counterexample. -/
theorem oklchToRgb_eq_clamped_reference (L C H : ℝ) :
    oklchToRgb L C H = oklchToRgbClampedRef L C H :=
  rfl

/-- **C6** counterexample to the claim as stated: at the out-of-gamut input
`(L, C, H) = (0, 1, 0)` the green channel's linear value is negative, so the
code (which clamps it to 0 inside `linearToSrgb`) disagrees with the
unclamped reference composition. -/
theorem oklchToRgb_unclamped_counterexample :
    (oklchToRgb 0 1 0).2.1 ≠ (oklchToRgbUnclamped 0 1 0).2.1 := by
  have hrad : (0 : ℝ) * Real.pi / 180 = 0 := by ring
  unfold oklchToRgb oklchToRgbUnclamped linearToSrgb gammaEncodeUnclamped
  rw [hrad]
  norm_num [min_def, max_def]

/-! ## `src/lib/shades.js` -/

/-- `hexToHsl`-style convenience wrapper `hexToOklch(hex)` from `color.js`. -/
noncomputable def hexToOklch (hex : String) : ℝ × ℝ × ℝ :=
  rgbToOklch ((hexToRgb hex).1 : ℝ) ((hexToRgb hex).2.1 : ℝ) ((hexToRgb hex).2.2 : ℝ)

/-- Convenience wrapper `oklchToHex(L, C, H)` from `color.js`. -/
noncomputable def oklchToHex (L C H : ℝ) : String :=
  rgbToHex (oklchToRgb L C H).1 (oklchToRgb L C H).2.1 (oklchToRgb L C H).2.2

/-- The fixed 11 shade levels of `shades.js`. -/
def SHADES : List ℕ :=
  [50, 100, 200, 300, 400, 500, 600, 700, 800, 900, 950]

/-- The `LIGHTER_T` interpolation table (0 outside its domain; the source
only consults it for the five lighter levels). -/
noncomputable def lighterT (shade : ℕ) : ℝ :=
  if shade = 50 then 0.92
  else if shade = 100 then 0.80
  else if shade = 200 then 0.62
  else if shade = 300 then 0.42
  else if shade = 400 then 0.18
  else 0

/-- The `DARKER_T` interpolation table (0 outside its domain; the source
only consults it for the five darker levels). -/
noncomputable def darkerT (shade : ℕ) : ℝ :=
  if shade = 600 then 0.18
  else if shade = 700 then 0.38
  else if shade = 800 then 0.56
  else if shade = 900 then 0.76
  else if shade = 950 then 0.92
  else 0

/-- `LIGHT_END` from `shades.js`. -/
noncomputable def LIGHT_END : ℝ := 0.98

/-- `DARK_END` from `shades.js`. -/
noncomputable def DARK_END : ℝ := 0.10

/-- Lightness assigned by the shade ramp: interpolate from the base
lightness toward the light end (lighter levels) or dark end (darker levels).
At level 500 both table factors vanish, so `shadeL baseL 500 = baseL`, the
lightness of the pass-through base color. -/
noncomputable def shadeL (baseL : ℝ) (shade : ℕ) : ℝ :=
  if shade < 500 then baseL + (LIGHT_END - baseL) * lighterT shade
  else baseL - (baseL - DARK_END) * darkerT shade

/-- Chroma scale factor `cScale` of `shades.js`. -/
noncomputable def cScale (shade : ℕ) : ℝ :=
  if shade < 500 then 1 - lighterT shade * 0.95
  else 1 - darkerT shade * 0.65

/-- Chroma assigned by the ramp: `baseC * Math.max(0, cScale)`. -/
noncomputable def shadeC (baseC : ℝ) (shade : ℕ) : ℝ :=
  baseC * max 0 (cScale shade)

/-- `generateShades(hex)` from `src/lib/shades.js`: level 500 passes the
input hex through unchanged; every other level recombines interpolated
lightness, attenuated chroma, and the base hue. -/
noncomputable def generateShades (hex : String) : List (ℕ × String) :=
  let b := hexToOklch hex
  SHADES.map fun shade =>
    if shade = 500 then (shade, hex)
    else (shade, oklchToHex (shadeL b.1 shade) (shadeC b.2.1 shade) b.2.2)

/-- **C2**. The shade ramp has exactly the 11 levels 50–950 in order, and
the level-500 entry is exactly the input hex string, bypassing all
conversion (hence no floating-point drift). -/
theorem generateShades_levels_and_500 (hex : String) :
    (generateShades hex).map Prod.fst
        = [50, 100, 200, 300, 400, 500, 600, 700, 800, 900, 950] ∧
      (generateShades hex)[5]? = some (500, hex) :=
  ⟨rfl, rfl⟩

lemma hexToOklch_black : hexToOklch "#000000" = (0, 0, 0) := by
  have h0 : hexToRgb "#000000" = (0, 0, 0) := by decide
  unfold hexToOklch
  rw [h0]
  show rgbToOklch ((0 : ℕ) : ℝ) ((0 : ℕ) : ℝ) ((0 : ℕ) : ℝ) = (0, 0, 0)
  have hlin : srgbToLinear ((0 : ℕ) : ℝ) = 0 := by
    unfold srgbToLinear
    norm_num
  have hcbrt : jsCbrt 0 = 0 := by
    unfold jsCbrt
    rw [if_neg (by norm_num)]
    exact Real.zero_rpow (by norm_num)
  have hatan : jsAtan2 0 0 = 0 := by
    unfold jsAtan2
    rw [show (⟨0, 0⟩ : ℂ) = 0 from Complex.ext rfl rfl, Complex.arg_zero]
  unfold rgbToOklch
  rw [hlin]
  norm_num [hcbrt, hatan]

/-- **C3** (amended). The shade-ramp lightness is strictly decreasing from
level 50 to level 950 for every base color whose base OKLCH lightness lies
strictly between `DARK_END = 0.10` and `LIGHT_END = 0.98`. (For base colors
outside that band — e.g. black or near-white — the interpolation overshoots
and the sequence is not strictly decreasing; see the counterexample.) -/
theorem shadeL_strictly_decreasing (baseL : ℝ) (h1 : DARK_END < baseL)
    (h2 : baseL < LIGHT_END) :
    (SHADES.map (shadeL baseL)).Chain' (fun a b => b < a) := by
  have h1' : (0.10 : ℝ) < baseL := h1
  have h2' : baseL < (0.98 : ℝ) := h2
  simp only [SHADES, List.map_cons, List.map_nil, List.chain'_cons,
    List.chain'_singleton, and_true]
  refine ⟨?_, ?_, ?_, ?_, ?_, ?_, ?_, ?_, ?_, ?_⟩ <;>
    · norm_num [shadeL, lighterT, darkerT, LIGHT_END, DARK_END] <;>
        nlinarith [h1', h2']

/-- Witness for C3's theorem at base lightness `0.5`. -/
theorem shadeL_strictly_decreasing_witness :
    DARK_END < (0.5 : ℝ) ∧ (0.5 : ℝ) < LIGHT_END ∧
      (SHADES.map (shadeL 0.5)).Chain' (fun a b => b < a) :=
  ⟨by norm_num [DARK_END], by norm_num [LIGHT_END],
    shadeL_strictly_decreasing 0.5 (by norm_num [DARK_END]) (by norm_num [LIGHT_END])⟩

/-- **C3** counterexample to the claim as stated: for base color `#000000`
the base lightness is 0, and the ramp's lightness values are NOT strictly
decreasing (on the dark side they increase: shade 600 gets L = 0.018 while
shade 700 gets L = 0.038). -/
theorem shades_lightness_not_strictly_decreasing_black :
    hexToOklch "#000000" = (0, 0, 0) ∧
      ¬ (SHADES.map (shadeL (hexToOklch "#000000").1)).Chain' (fun a b => b < a) := by
  refine ⟨hexToOklch_black, ?_⟩
  rw [hexToOklch_black]
  intro hchain
  simp only [SHADES, List.map_cons, List.map_nil, List.chain'_cons] at hchain
  have h67 := hchain.2.2.2.2.2.2.1
  norm_num [shadeL, darkerT, DARK_END] at h67

/-- **C10**. Chroma attenuation: with nonnegative base chroma, every shade's
chroma (`baseC` scaled by the capped `cScale` factor) never exceeds the base
chroma, and chroma is monotonically non-increasing moving away from level
500 toward either extreme of the ramp. -/
theorem shadeC_attenuation (baseC : ℝ) (h : 0 ≤ baseC) :
    (∀ shade ∈ SHADES, shadeC baseC shade ≤ baseC) ∧
      List.Chain' (fun a b => shadeC baseC b ≤ shadeC baseC a)
        [500, 600, 700, 800, 900, 950] ∧
      List.Chain' (fun a b => shadeC baseC b ≤ shadeC baseC a)
        [500, 400, 300, 200, 100, 50] := by
  have key : ∀ x y : ℝ, x ≤ y → baseC * x ≤ baseC * y :=
    fun x y hxy => mul_le_mul_of_nonneg_left hxy h
  refine ⟨?_, ?_, ?_⟩
  · intro shade hs
    have hbound : ∀ s : ℕ, max 0 (cScale s) ≤ 1 → shadeC baseC s ≤ baseC := by
      intro s hle
      have hk := key _ _ hle
      rw [mul_one] at hk
      exact hk
    simp only [SHADES, List.mem_cons, List.not_mem_nil, or_false] at hs
    rcases hs with rfl | rfl | rfl | rfl | rfl | rfl | rfl | rfl | rfl | rfl | rfl <;>
      · apply hbound
        norm_num [cScale, lighterT, darkerT, max_def]
  · simp only [List.chain'_cons, List.chain'_singleton, and_true]
    refine ⟨?_, ?_, ?_, ?_, ?_⟩ <;>
      · show baseC * _ ≤ baseC * _
        apply key
        norm_num [cScale, lighterT, darkerT, max_def]
  · simp only [List.chain'_cons, List.chain'_singleton, and_true]
    refine ⟨?_, ?_, ?_, ?_, ?_⟩ <;>
      · show baseC * _ ≤ baseC * _
        apply key
        norm_num [cScale, lighterT, darkerT, max_def]

/-- Witness for C10's theorem at base chroma `1`. -/
theorem shadeC_attenuation_witness :
    (0 : ℝ) ≤ 1 ∧
      ((∀ shade ∈ SHADES, shadeC 1 shade ≤ 1) ∧
        List.Chain' (fun a b => shadeC 1 b ≤ shadeC 1 a)
          [500, 600, 700, 800, 900, 950] ∧
        List.Chain' (fun a b => shadeC 1 b ≤ shadeC 1 a)
          [500, 400, 300, 200, 100, 50]) :=
  ⟨by norm_num, shadeC_attenuation 1 (by norm_num)⟩
